import Mathlib

/-!
Verification of the contour-to-voxel rasterization and binary-mask algebra
engine of the DECIDE repository.

The development shallowly embeds:
* `decide/mask/mask_processor.py` (`MaskPostProcessor.remove_islands_thr`,
  `combine_binary_masks`, `remove_overlapping_parts`);
* `decide/dcm/rtstruct.py` (`RTStruct._make_binary_mask`, `_empty_mask`,
  `prune_rtstruct_rois`, `rename_rois`, and the name registry `roi_dict`).

Modelling conventions:
* voxel grids are `Finset`s of coordinates; images are assumed binary
  (the claims under scrutiny all quantify over binary masks, for which the
  `BinaryThreshold` pre-pass of the Python code is the identity);
* floating point arithmetic is modelled with exact rationals;
* calls into external libraries that the repository merely delegates to
  (`skimage.draw.polygon`, `scipy.ndimage.binary_fill_holes`) are modelled as
  explicit function parameters, so every theorem holds for an arbitrary
  rasterizer / hole-filler;
* `SimpleITK.ConnectedComponent` is modelled by connected components of the
  face-adjacency (6-connectivity) graph on the foreground voxels, which is
  the SimpleITK default (`fullyConnected=False`);
* Python `warnings.warn` calls are modelled by counting emitted warnings;
  raised exceptions become `Except` errors.
-/

/-- A voxel coordinate. -/
abbrev Pos3 := ℕ × ℕ × ℕ

/-- A pixel coordinate inside one slice. -/
abbrev Pix := ℕ × ℕ

/-- Grid geometry attached to a SimpleITK image: `GetSize`, `GetSpacing`,
`GetOrigin`, `GetDirection`.  These are exactly the four fields compared by
`combine_binary_masks` and `remove_overlapping_parts` before operating. -/
structure GridGeom where
  size : ℕ × ℕ × ℕ
  spacing : ℚ × ℚ × ℚ
  origin : ℚ × ℚ × ℚ
  direction : List ℚ
deriving DecidableEq

/-- A binary mask volume: grid geometry plus the set of foreground voxels. -/
structure Mask where
  geom : GridGeom
  voxels : Finset Pos3
deriving DecidableEq

/-- Errors raised by the mask algebra operations: `ValueError` on an empty
input list, `RuntimeError` on inconsistent geometry, `ValueError` on an
out-of-range threshold. -/
inductive AlgErr where
  | emptyInput
  | geometryMismatch
  | invalidParameter
deriving DecidableEq

/-- `MaskPostProcessor.remove_overlapping_parts(mask_1, mask_2)`:
checks geometry, warns when either operand is empty, and returns
`mask_1` unchanged when `mask_2` is empty, else `And(mask_1, BinaryNot(mask_2))`.
The second component counts the warnings emitted. -/
def remove_overlapping_parts (mask_1 mask_2 : Mask) : Except AlgErr (Mask × ℕ) :=
  if mask_1.geom ≠ mask_2.geom then .error .geometryMismatch
  else
    let w1 := if mask_1.voxels = ∅ then 1 else 0
    if mask_2.voxels = ∅ then
      .ok (mask_1, w1 + 1)
    else
      .ok (⟨mask_1.geom, mask_1.voxels \ mask_2.voxels⟩, w1)

/-- The loop body of `combine_binary_masks` over the tail of the input list:
each image is compared with the reference geometry (`RuntimeError` on
mismatch), empty masks are skipped with a warning, non-empty masks are
`Or`-ed into the accumulator. -/
def combineAux (ref : GridGeom) (acc : Finset Pos3 × ℕ) :
    List Mask → Except AlgErr (Finset Pos3 × ℕ)
  | [] => .ok acc
  | m :: ms =>
    if m.geom ≠ ref then .error .geometryMismatch
    else if m.voxels = ∅ then combineAux ref (acc.1, acc.2 + 1) ms
    else combineAux ref (acc.1 ∪ m.voxels, acc.2) ms

/-- `MaskPostProcessor.combine_binary_masks(input_data)`: `ValueError` on an
empty list; otherwise the first image becomes the reference and the initial
accumulator (an empty first image is "skipped" with a warning, but the
accumulator already equals it, exactly as in the Python code), and the rest
of the list is folded by `combineAux`.  The final `CopyInformation` call
gives the result the reference geometry. -/
def combine_binary_masks : List Mask → Except AlgErr (Mask × ℕ)
  | [] => .error .emptyInput
  | m0 :: rest =>
    match combineAux m0.geom (m0.voxels, if m0.voxels = ∅ then 1 else 0) rest with
    | .error e => .error e
    | .ok (vx, w) => .ok (⟨m0.geom, vx⟩, w)

/-- Python's `round` on a float: round half to even (banker's rounding). -/
def pyRound (q : ℚ) : ℤ :=
  let f := ⌊q⌋
  if q - f < 1 / 2 then f
  else if 1 / 2 < q - f then f + 1
  else if f % 2 = 0 then f else f + 1

/-- Slice-index resolution of `_make_binary_mask`:
`slice_idx = int(round((z_position - origin[2]) / spacing[2]))`, rejected
(`None`, the contour is skipped) when `slice_idx < 0` or
`slice_idx >= image_size[2]`. -/
def resolveSliceIdx (z oz sz : ℚ) (nz : ℕ) : Option ℤ :=
  let i := pyRound ((z - oz) / sz)
  if i < 0 ∨ (nz : ℤ) ≤ i then none else some i

/-- One item of a `ContourSequence`.  `contourData` is the reshaped
`(-1, 3)` point list (`none` models a missing `ContourData` attribute);
`contourStatus` marks hole (`"SUB"`) contours; `geometricType` is
`ContourGeometricType` with pydicom default handling via `getD`. -/
structure Contour where
  contourData : Option (List (ℚ × ℚ × ℚ))
  contourStatus : Option String
  geometricType : Option String
deriving DecidableEq

/-- `is_sub = hasattr(contour, "ContourStatus") and contour.ContourStatus == "SUB"`. -/
def Contour.is_sub (c : Contour) : Prop := c.contourStatus = some "SUB"

instance (c : Contour) : Decidable c.is_sub := by
  unfold Contour.is_sub; infer_instance

/-- `contour_type = getattr(contour, "ContourGeometricType", "CLOSED_PLANAR")`. -/
def Contour.ctype (c : Contour) : String := c.geometricType.getD "CLOSED_PLANAR"

/-- The external rasterizer `skimage.draw.polygon(y, x, shape)`: given the
row/column coordinate pairs and the 2-D shape, it returns the set of filled
pixels.  The repository delegates to it, so it is a parameter here. -/
abbrev Rasterizer := List (ℚ × ℚ) → ℕ × ℕ → Finset Pix

/-- The external hole filler `scipy.ndimage.binary_fill_holes`, also a
parameter (the second argument is the slice shape). -/
abbrev HoleFiller := Finset Pix → ℕ × ℕ → Finset Pix

/-- The usable-contour test and slice resolution of the first loop of
`_make_binary_mask`: a contour is skipped when `ContourData` is missing or
holds fewer than 6 values (i.e. fewer than 2 points), and otherwise resolved
to the slice index of its first point's physical `z`; an out-of-range index
again yields `none` (skip). -/
def contourSliceIdx (g : GridGeom) (c : Contour) : Option ℤ :=
  match c.contourData with
  | none => none
  | some pts =>
    match pts.head? with
    | none => none
    | some p =>
      if pts.length < 2 then none
      else resolveSliceIdx p.2.2 g.origin.2.2 g.spacing.2.2 g.size.2.2

/-- The per-contour rasterization of the second loop of `_make_binary_mask`:
physical points are converted to voxel coordinates, contours with fewer than
3 points write nothing, `CLOSED_PLANAR` contours that are not closed are
closed by appending the first point, and the result pairs the filled pixel
set with the write polarity (`true` = set, i.e. not a SUB contour). -/
def writeOf (g : GridGeom) (rast : Rasterizer) (c : Contour) :
    Option (Finset Pix × Bool) :=
  match c.contourData with
  | none => none
  | some pts =>
    if 3 ≤ pts.length then
      let xs := pts.map (fun p => (p.1 - g.origin.1) / g.spacing.1)
      let ys := pts.map (fun p => (p.2.1 - g.origin.2.1) / g.spacing.2.1)
      let yx :=
        if c.ctype = "CLOSED_PLANAR" ∧ pts.head? ≠ pts.getLast? then
          (ys ++ ys.take 1, xs ++ xs.take 1)
        else (ys, xs)
      some (rast (yx.1.zip yx.2) (g.size.1, g.size.2.1), ! decide c.is_sub)
    else none

/-- One write into the accumulating slice mask:
`slice_mask[rr, cc] = 0` for SUB contours, `= 1` otherwise. -/
def contourStep (g : GridGeom) (rast : Rasterizer) (sm : Finset Pix)
    (c : Contour) : Finset Pix :=
  match writeOf g rast c with
  | none => sm
  | some (px, b) => if b then sm ∪ px else sm \ px

/-- The slice mask accumulated over the slice's contours in sequence order,
starting from `np.zeros`. -/
def composeSliceRaw (g : GridGeom) (rast : Rasterizer)
    (cs : List Contour) : Finset Pix :=
  cs.foldl (contourStep g rast) ∅

/-- The composed slice mask:
`if np.any(slice_mask) and fill_holes: slice_mask = binary_fill_holes(slice_mask)`. -/
def composeSlice (g : GridGeom) (rast : Rasterizer) (fillFn : HoleFiller)
    (fill_holes : Bool) (cs : List Contour) : Finset Pix :=
  let raw := composeSliceRaw g rast cs
  if raw.Nonempty ∧ fill_holes = true then fillFn raw (g.size.1, g.size.2.1)
  else raw

/-- The contours grouped on slice `z` (`slice_contours[slice_idx]`),
in encounter order. -/
def groupAt (g : GridGeom) (cs : List Contour) (z : ℤ) : List Contour :=
  cs.filter (fun c => contourSliceIdx g c = some z)

/-- The voxel set of `_make_binary_mask`'s output: slice `z` of the 3-D
array holds the composed slice mask of the contours resolved to `z`
(slices touched by no contour stay all-false, which coincides with the
composition of an empty contour list). -/
def assembleVoxels (g : GridGeom) (rast : Rasterizer) (fillFn : HoleFiller)
    (fill_holes : Bool) (cs : List Contour) : Finset Pos3 :=
  (Finset.range g.size.2.2).biUnion fun z =>
    (composeSlice g rast fillFn fill_holes (groupAt g cs (z : ℤ))).image
      fun p => (p.1, p.2, z)

/-- An item of `StructureSetROISequence`. -/
structure RoiEntry where
  roiName : String
  roiNumber : ℤ
deriving DecidableEq

/-- An item of `ROIContourSequence`; the `ContourSequence` attribute may be
absent (`hasattr` check in `_make_binary_mask`). -/
structure RoiContourEntry where
  referencedROINumber : ℤ
  contourSequence : Option (List Contour)
deriving DecidableEq

/-- An item of `RTROIObservationsSequence`. -/
structure ObsEntry where
  referencedROINumber : ℤ
deriving DecidableEq

/-- The mutable pydicom dataset held by an `RTStruct` object; the two
top-level sequences other than `StructureSetROISequence` may be absent. -/
structure RTStructData where
  structureSetROISequence : List RoiEntry
  roiContourSequence : Option (List RoiContourEntry)
  rtROIObservationsSequence : Option (List ObsEntry)
deriving DecidableEq

/-- An `RTStruct` object: the dataset plus the name registry `self.roi_dict`
mapping `ROIName` to `(index, ROINumber)`. -/
structure RTState where
  rtstruct : RTStructData
  roiDict : List (String × ℕ × ℤ)
deriving DecidableEq

/-- Lookup in a Python dict built from a list of key/value pairs: the last
binding of a key wins. -/
def dictLookup (d : List (String × ℕ × ℤ)) (k : String) : Option (ℕ × ℤ) :=
  (d.reverse.find? fun e => decide (e.1 = k)).map fun e => e.2

/-- `self.roi_dict = {roi.ROIName: (indx, roi.ROINumber) for indx, roi in
enumerate(self.rtstruct.StructureSetROISequence)}`. -/
def buildRoiDict (rois : List RoiEntry) : List (String × ℕ × ℤ) :=
  rois.enum.map fun p => (p.2.roiName, p.1, p.2.roiNumber)

/-- Lookup in the rename map (`rename_map` is a Python dict). -/
def assocLookup (l : List (String × String)) (k : String) : Option String :=
  (l.find? fun e => decide (e.1 = k)).map fun e => e.2

/-- Error raised by `_make_binary_mask`: `ValueError` when the ROI name is
not a key of `roi_dict`.  No other exception escapes it. -/
inductive MaskErr where
  | roiNotFound
deriving DecidableEq

/-- `RTStruct._empty_mask`: an all-false volume carrying the reference
image's geometry. -/
def emptyMask (g : GridGeom) : Mask := ⟨g, ∅⟩

/-- `RTStruct._make_binary_mask(roi_name)`: `ValueError` if the name is not
in `roi_dict`; a warning plus `_empty_mask` when `ROIContourSequence` is
absent, the index is out of range, or the entry has no `ContourSequence`;
otherwise the assembled volume with the reference image's geometry. -/
def make_binary_mask (s : RTState) (g : GridGeom) (rast : Rasterizer)
    (fillFn : HoleFiller) (fill_holes : Bool) (roi_name : String) :
    Except MaskErr Mask :=
  match dictLookup s.roiDict roi_name with
  | none => .error .roiNotFound
  | some (idx, _) =>
    match s.rtstruct.roiContourSequence with
    | none => .ok (emptyMask g)
    | some rcs =>
      match rcs.get? idx with
      | none => .ok (emptyMask g)
      | some rc =>
        match rc.contourSequence with
        | none => .ok (emptyMask g)
        | some cs => .ok ⟨g, assembleVoxels g rast fillFn fill_holes cs⟩

/-- `RTStruct.prune_rtstruct_rois(rois_to_keep)`: keeps the ROIs whose name
is listed, keeps the contour sequences and observation records whose
`ReferencedROINumber` belongs to a kept ROI (deleting `ROIContourSequence`
entirely when nothing survives), and rebuilds `roi_dict`. -/
def prune_rtstruct_rois (s : RTState) (rois_to_keep : List String) : RTState :=
  let keptRois := s.rtstruct.structureSetROISequence.filter
    fun r => decide (r.roiName ∈ rois_to_keep)
  let keptNums := keptRois.map RoiEntry.roiNumber
  let keptContours :=
    match s.rtstruct.roiContourSequence with
    | none => none
    | some rcs =>
      let kept := rcs.filter fun rc => decide (rc.referencedROINumber ∈ keptNums)
      if kept.isEmpty then none else some kept
  let keptObs := s.rtstruct.rtROIObservationsSequence.map
    fun l => l.filter fun o => decide (o.referencedROINumber ∈ keptNums)
  ⟨⟨keptRois, keptContours, keptObs⟩, buildRoiDict keptRois⟩

/-- `RTStruct.rename_rois(rename_map)`: rewrites `ROIName` of every matching
ROI in `StructureSetROISequence`; `roi_dict` is left untouched. -/
def rename_rois (s : RTState) (rename_map : List (String × String)) : RTState :=
  { s with
    rtstruct := { s.rtstruct with
      structureSetROISequence := s.rtstruct.structureSetROISequence.map
        fun r =>
          match assocLookup rename_map r.roiName with
          | some n => { r with roiName := n }
          | none => r } }

/-- Face adjacency of voxels (6-connectivity): the two coordinates differ by
one in exactly one axis.  This is the default connectivity of
`SimpleITK.ConnectedComponent` (`fullyConnected=False`). -/
def adj6 (p q : Pos3) : Prop :=
  (p.1 = q.1 ∧ p.2.1 = q.2.1 ∧ (p.2.2 = q.2.2 + 1 ∨ q.2.2 = p.2.2 + 1)) ∨
  (p.1 = q.1 ∧ p.2.2 = q.2.2 ∧ (p.2.1 = q.2.1 + 1 ∨ q.2.1 = p.2.1 + 1)) ∨
  (p.2.1 = q.2.1 ∧ p.2.2 = q.2.2 ∧ (p.1 = q.1 + 1 ∨ q.1 = p.1 + 1))

instance (p q : Pos3) : Decidable (adj6 p q) := by
  unfold adj6; infer_instance

/-- The adjacency graph on the foreground voxels of a mask; its connected
components model the label map produced by `sitk.ConnectedComponent`. -/
def maskGraph (m : Finset Pos3) : SimpleGraph {p : Pos3 // p ∈ m} where
  Adj a b := adj6 a.1 b.1
  symm := by
    intro a b h
    unfold adj6 at h ⊢
    tauto
  loopless := by
    intro a h
    unfold adj6 at h
    rcases h with ⟨_, _, h⟩ | ⟨_, _, h⟩ | ⟨_, _, h⟩ <;> omega

instance (m : Finset Pos3) : DecidableRel (maskGraph m).Adj :=
  fun a b => inferInstanceAs (Decidable (adj6 a.1 b.1))

/-- Two voxels carry the same label iff both are foreground and are joined
by a path of foreground voxels. -/
def sameComp (m : Finset Pos3) (v w : Pos3) : Prop :=
  ∃ (hv : v ∈ m) (hw : w ∈ m), (maskGraph m).Reachable ⟨v, hv⟩ ⟨w, hw⟩

instance (m : Finset Pos3) (v w : Pos3) : Decidable (sameComp m v w) :=
  if hv : v ∈ m then
    if hw : w ∈ m then
      decidable_of_iff ((maskGraph m).Reachable ⟨v, hv⟩ ⟨w, hw⟩)
        ⟨fun h => ⟨hv, hw, h⟩, fun ⟨_, _, h⟩ => h⟩
    else isFalse fun ⟨_, hw2, _⟩ => hw hw2
  else isFalse fun ⟨hv2, _, _⟩ => hv hv2

/-- The connected component of `v` in the label image: the foreground voxels
sharing `v`'s label. -/
def compOf (m : Finset Pos3) (v : Pos3) : Finset Pos3 :=
  m.filter fun w => sameComp m v w

/-- `max(volumes)` over the connected components, where
`GetPhysicalSize(label)` is voxel count times the per-voxel physical volume
`vol`.  (The `getD 0` default is never consulted: `remove_islands_thr` only
evaluates this once the label set is known to be non-empty.) -/
def maxCompVol (m : Finset Pos3) (vol : ℚ) : ℚ :=
  (((m.image (compOf m)).image fun c => (c.card : ℚ) * vol).max).getD 0

/-- The core of `remove_islands_thr` on the voxel set: an empty mask is
returned unchanged; otherwise the components whose physical volume reaches
`max_volume * thr` are `Or`-ed into an initially empty result. -/
def removeIslandsVoxels (m : Finset Pos3) (vol thr : ℚ) : Finset Pos3 :=
  if m = ∅ then m
  else
    ((m.image (compOf m)).filter
      fun c => maxCompVol m vol * thr ≤ (c.card : ℚ) * vol).sup id

/-- The per-voxel physical volume of a grid: the product of the spacings
(so component count times this is `GetPhysicalSize`). -/
def voxelVolume (g : GridGeom) : ℚ :=
  g.spacing.1 * g.spacing.2.1 * g.spacing.2.2

/-- `MaskPostProcessor.remove_islands_thr(input_data, thr)` on a binary
mask: `ValueError` unless `0 <= thr <= 1`, else the thresholded union of
connected components, carrying the input geometry (`CopyInformation`). -/
def remove_islands_thr (mk : Mask) (thr : ℚ) : Except AlgErr Mask :=
  if 0 ≤ thr ∧ thr ≤ 1 then
    .ok ⟨mk.geom, removeIslandsVoxels mk.voxels (voxelVolume mk.geom) thr⟩
  else .error .invalidParameter

/-- The sequence-order write semantics stated by the specification, replayed
per pixel: scanning the slice's contours in order, each rasterized contour
that covers the pixel overwrites its value (`false` for a SUB contour,
`true` otherwise); pixels covered by no contour stay `false`. -/
def lastWriteVal (g : GridGeom) (rast : Rasterizer) (cs : List Contour)
    (p : Pix) : Bool :=
  cs.foldl
    (fun acc c =>
      match writeOf g rast c with
      | none => acc
      | some (px, b) => if p ∈ px then b else acc)
    false

/-- A degenerate contour: its point list (if any) has fewer than 3 points. -/
def degenerate (c : Contour) : Prop :=
  ∀ pts, c.contourData = some pts → pts.length < 3

/-- The ROI entry at `idx` has zero usable contours: the contour sequence is
missing (at any of the three levels checked by `_make_binary_mask`), or every
contour it holds is skipped (unresolvable slice index) or degenerate. -/
def noUsableContours (s : RTState) (g : GridGeom) (idx : ℕ) : Prop :=
  match s.rtstruct.roiContourSequence with
  | none => True
  | some rcs =>
    match rcs.get? idx with
    | none => True
    | some rc =>
      match rc.contourSequence with
      | none => True
      | some cs => ∀ c ∈ cs, contourSliceIdx g c = none ∨ degenerate c

/-- A concrete 4x4x4 unit-spacing geometry used by the witnesses. -/
def g0 : GridGeom := ⟨(4, 4, 4), (1, 1, 1), (0, 0, 0), [1, 0, 0, 0, 1, 0, 0, 0, 1]⟩

/-- A concrete rasterizer for the witnesses: every polygon fills pixel (0,0). -/
def rast0 : Rasterizer := fun _ _ => {(0, 0)}

/-- A concrete hole filler for the witnesses: adds pixel (1,1). -/
def fillFn0 : HoleFiller := fun s _ => s ∪ {(1, 1)}

/-- A concrete structure set with one ROI named "A" (number 1) and no
`ROIContourSequence`, with its registry as built by `RTStruct.__init__`. -/
def s0 : RTState :=
  ⟨⟨[⟨"A", 1⟩], none, none⟩, buildRoiDict [⟨"A", 1⟩]⟩

/-- A concrete structure set with two ROIs "A" (number 1) and "B" (number 2),
contour sequences for both, and one observation record each. -/
def s1 : RTState :=
  ⟨⟨[⟨"A", 1⟩, ⟨"B", 2⟩],
    some [⟨1, some [⟨some [(0, 0, 0), (1, 0, 0), (1, 1, 0)], none, none⟩]⟩,
          ⟨2, some []⟩],
    some [⟨1⟩, ⟨2⟩]⟩,
   buildRoiDict [⟨"A", 1⟩, ⟨"B", 2⟩]⟩

/-- A concrete mask on `g0` holding two voxels. -/
def mA : Mask := ⟨g0, {(0, 0, 0), (2, 0, 0)}⟩

/-- A second concrete mask on `g0`. -/
def mB : Mask := ⟨g0, {(0, 0, 0), (1, 1, 1)}⟩

/-- A concrete empty mask on `g0`. -/
def mE : Mask := ⟨g0, ∅⟩

/-- A concrete contour with two points (degenerate) lying on slice 0 of `g0`. -/
def cDegen : Contour := ⟨some [(0, 0, 0), (1, 0, 0)], none, none⟩

/-- A concrete triangle contour on slice 0 of `g0`. -/
def cTri : Contour := ⟨some [(0, 0, 0), (2, 0, 0), (2, 2, 0)], none, none⟩

/-- A concrete SUB (hole) triangle contour on slice 0 of `g0`. -/
def cHole : Contour := ⟨some [(0, 0, 0), (2, 0, 0), (2, 2, 0)], some "SUB", none⟩

/-- A concrete contour whose physical z (1000) resolves out of range on `g0`. -/
def cFar : Contour := ⟨some [(0, 0, 1000), (2, 0, 1000), (2, 2, 1000)], none, none⟩

/-- The union of the voxel sets of a list of masks. -/
def unionVoxels (ms : List Mask) : Finset Pos3 :=
  ms.foldr (fun m acc => m.voxels ∪ acc) ∅

theorem mem_unionVoxels (ms : List Mask) (p : Pos3) :
    p ∈ unionVoxels ms ↔ ∃ m ∈ ms, p ∈ m.voxels := by
  induction ms with
  | nil => simp [unionVoxels]
  | cons m ms ih => simp [unionVoxels] at ih ⊢; rw [ih]

theorem combineAux_ok (ref : GridGeom) (vx : Finset Pos3) (w0 : ℕ)
    (ms : List Mask) (h : ∀ m ∈ ms, m.geom = ref) :
    combineAux ref (vx, w0) ms =
      .ok (vx ∪ unionVoxels ms, w0 + ms.countP fun m => decide (m.voxels = ∅)) := by
  induction ms generalizing vx w0 with
  | nil => simp [combineAux, unionVoxels]
  | cons m ms ih =>
    have hm : m.geom = ref := h m (by simp)
    rw [combineAux, if_neg (by simp [hm])]
    by_cases he : m.voxels = ∅
    · rw [if_pos he, ih _ _ (fun x hx => h x (List.mem_cons_of_mem _ hx))]
      simp only [unionVoxels, List.foldr_cons, List.countP_cons, he]
      simp [Finset.union_comm, Nat.add_comm, Nat.add_assoc, Nat.add_left_comm]
    · rw [if_neg he, ih _ _ (fun x hx => h x (List.mem_cons_of_mem _ hx))]
      simp only [unionVoxels, List.foldr_cons, List.countP_cons, he]
      simp [Finset.union_assoc]

theorem combineAux_mismatch (ref : GridGeom) (acc : Finset Pos3 × ℕ)
    (ms : List Mask) (h : ∃ m ∈ ms, m.geom ≠ ref) :
    combineAux ref acc ms = .error .geometryMismatch := by
  induction ms generalizing acc with
  | nil => simp at h
  | cons m ms ih =>
    rw [combineAux]
    by_cases hm : m.geom = ref
    · rw [if_neg (by simp [hm])]
      obtain ⟨x, hx, hxg⟩ := h
      rcases List.mem_cons.mp hx with hxm | hxm
      · exact absurd hm (hxm ▸ hxg)
      · by_cases he : m.voxels = ∅
        · rw [if_pos he]; exact ih _ ⟨x, hxm, hxg⟩
        · rw [if_neg he]; exact ih _ ⟨x, hxm, hxg⟩
    · rw [if_pos hm]

theorem combine_cons_ok (m0 : Mask) (rest : List Mask)
    (h : ∀ m ∈ rest, m.geom = m0.geom) :
    combine_binary_masks (m0 :: rest) =
      .ok (⟨m0.geom, m0.voxels ∪ unionVoxels rest⟩,
        (if m0.voxels = ∅ then 1 else 0) +
          rest.countP fun m => decide (m.voxels = ∅)) := by
  rw [combine_binary_masks, combineAux_ok m0.geom _ _ rest h]

/-- C6: for masks of identical grid geometry, `combine_binary_masks` returns
the voxel-wise OR of all list members (membership in the result is membership
in some operand), hence `combine([A, B])` and `combine([B, A])` agree
voxel-for-voxel. -/
theorem combine_or_of_all_comm :
    (∀ (m0 : Mask) (rest : List Mask), (∀ m ∈ m0 :: rest, m.geom = m0.geom) →
      ∃ w, combine_binary_masks (m0 :: rest) =
          .ok (⟨m0.geom, m0.voxels ∪ unionVoxels rest⟩, w) ∧
        ∀ p, p ∈ m0.voxels ∪ unionVoxels rest ↔ ∃ m ∈ m0 :: rest, p ∈ m.voxels)
    ∧ ∀ a b : Mask, a.geom = b.geom →
        ∃ mk w w2, combine_binary_masks [a, b] = .ok (mk, w) ∧
          combine_binary_masks [b, a] = .ok (mk, w2) := by
  constructor
  · intro m0 rest h
    refine ⟨_, combine_cons_ok m0 rest
      (fun m hm => h m (List.mem_cons_of_mem _ hm)), ?_⟩
    intro p
    simp [mem_unionVoxels]
  · intro a b hg
    have h1 := combine_cons_ok a [b] (by simp [hg])
    have h2 := combine_cons_ok b [a] (by simp [hg])
    have hmk : (⟨b.geom, b.voxels ∪ unionVoxels [a]⟩ : Mask) =
        ⟨a.geom, a.voxels ∪ unionVoxels [b]⟩ := by
      simp only [unionVoxels, List.foldr_cons, List.foldr_nil,
        Finset.union_empty, Mask.mk.injEq]
      exact ⟨hg.symm, Finset.union_comm _ _⟩
    exact ⟨_, _, _, h1, by rw [h2, hmk]⟩

/-- C7: `combine_binary_masks` fails with the empty-input error on `[]`,
fails with the geometry-mismatch error when some operand's geometry differs
from the first operand's, succeeds with at least one warning when some
operand of a well-formed list is empty, and on an all-empty well-formed list
succeeds with an all-false volume and one warning per mask. -/
theorem combine_error_and_warning_policy :
    combine_binary_masks [] = .error .emptyInput
    ∧ (∀ (m0 : Mask) (rest : List Mask), (∃ m ∈ rest, m.geom ≠ m0.geom) →
        combine_binary_masks (m0 :: rest) = .error .geometryMismatch)
    ∧ (∀ (m0 : Mask) (rest : List Mask) (m : Mask),
        (∀ x ∈ m0 :: rest, x.geom = m0.geom) → m ∈ m0 :: rest → m.voxels = ∅ →
        ∃ mk w, combine_binary_masks (m0 :: rest) = .ok (mk, w) ∧ 1 ≤ w)
    ∧ ∀ (m0 : Mask) (rest : List Mask), (∀ x ∈ m0 :: rest, x.geom = m0.geom) →
        (∀ x ∈ m0 :: rest, x.voxels = ∅) →
        combine_binary_masks (m0 :: rest) =
          .ok (⟨m0.geom, ∅⟩, (m0 :: rest).length) := by
  refine ⟨rfl, ?_, ?_, ?_⟩
  · intro m0 rest h
    rw [combine_binary_masks, combineAux_mismatch m0.geom _ rest h]
  · intro m0 rest m h hm he
    refine ⟨_, _, combine_cons_ok m0 rest
      (fun x hx => h x (List.mem_cons_of_mem _ hx)), ?_⟩
    rcases List.mem_cons.mp hm with hm0 | hmr
    · rw [← hm0, if_pos he]; omega
    · have : 0 < rest.countP fun m => decide (m.voxels = ∅) :=
        List.countP_pos_iff.mpr ⟨m, hmr, by simp [he]⟩
      omega
  · intro m0 rest h hall
    rw [combine_cons_ok m0 rest (fun x hx => h x (List.mem_cons_of_mem _ hx))]
    have hu : unionVoxels rest = ∅ := by
      apply Finset.eq_empty_iff_forall_not_mem.mpr
      intro p hp
      obtain ⟨m, hm, hpm⟩ := (mem_unionVoxels rest p).mp hp
      rw [hall m (List.mem_cons_of_mem _ hm)] at hpm
      simp at hpm
    have h0 : m0.voxels = ∅ := hall m0 (by simp)
    have hc : rest.countP (fun m => decide (m.voxels = ∅)) = rest.length :=
      List.countP_eq_length.mpr
        (fun m hm => by simp [hall m (List.mem_cons_of_mem _ hm)])
    simp [hu, h0, hc, Nat.add_comm]

/-- C2: for masks of identical grid geometry, `remove_overlapping_parts`
computes the voxel-wise `a AND NOT b`; consequently `subtract(A, A)` is
all-false, `subtract(A, empty)` returns `A` itself with a warning, and an
empty `A` yields an empty result. -/
theorem remove_overlapping_parts_correct (a b : Mask) (hg : a.geom = b.geom) :
    (∃ w, remove_overlapping_parts a b =
      .ok (⟨a.geom, a.voxels \ b.voxels⟩, w))
    ∧ (∃ w, remove_overlapping_parts a a = .ok (⟨a.geom, ∅⟩, w))
    ∧ (b.voxels = ∅ →
        ∃ w, remove_overlapping_parts a b = .ok (a, w) ∧ 1 ≤ w)
    ∧ (a.voxels = ∅ →
        ∃ mk w, remove_overlapping_parts a b = .ok (mk, w) ∧ mk.voxels = ∅) := by
  refine ⟨?_, ?_, ?_, ?_⟩
  · by_cases hb : b.voxels = ∅
    · refine ⟨(if a.voxels = ∅ then 1 else 0) + 1, ?_⟩
      rw [remove_overlapping_parts, if_neg (by simp [hg]), if_pos hb, hb,
        Finset.sdiff_empty]
    · exact ⟨_, by rw [remove_overlapping_parts, if_neg (by simp [hg]),
        if_neg hb]⟩
  · by_cases ha : a.voxels = ∅
    · refine ⟨(if a.voxels = ∅ then 1 else 0) + 1, ?_⟩
      rw [remove_overlapping_parts, if_neg (by simp), if_pos ha,
        show (⟨a.geom, (∅ : Finset Pos3)⟩ : Mask) = a from by
          cases a with | mk g v => simp_all]
    · refine ⟨if a.voxels = ∅ then 1 else 0, ?_⟩
      rw [remove_overlapping_parts, if_neg (by simp), if_neg ha,
        Finset.sdiff_self]
  · intro hb
    have h1 : remove_overlapping_parts a b =
        .ok (a, (if a.voxels = ∅ then 1 else 0) + 1) := by
      rw [remove_overlapping_parts, if_neg (by simp [hg]), if_pos hb]
    exact ⟨_, h1, Nat.le_add_left 1 _⟩
  · intro ha
    by_cases hb : b.voxels = ∅
    · refine ⟨a, (if a.voxels = ∅ then 1 else 0) + 1, ?_, ha⟩
      rw [remove_overlapping_parts, if_neg (by simp [hg]), if_pos hb]
    · refine ⟨⟨a.geom, a.voxels \ b.voxels⟩,
        if a.voxels = ∅ then 1 else 0, ?_, ?_⟩
      · rw [remove_overlapping_parts, if_neg (by simp [hg]), if_neg hb]
      · simp [ha]

theorem contourStep_degenerate (g : GridGeom) (rast : Rasterizer)
    (c : Contour) (hc : degenerate c) (sm : Finset Pix) :
    contourStep g rast sm c = sm := by
  have h1 : writeOf g rast c = none := by
    unfold writeOf
    rcases hd : c.contourData with _ | pts
    · simp [hd]
    · have hlt := hc pts hd
      simp only [hd]
      rw [if_neg (by omega)]
  unfold contourStep
  rw [h1]

theorem foldl_const {α β : Type} (f : α → β → α) (l : List β) (init : α)
    (h : ∀ c ∈ l, ∀ a, f a c = a) : l.foldl f init = init := by
  induction l generalizing init with
  | nil => rfl
  | cons c l ih =>
    rw [List.foldl_cons, h c (by simp), ih]
    intro x hx a
    exact h x (List.mem_cons_of_mem _ hx) a

theorem groupAt_append (g : GridGeom) (L L' : List Contour) (z : ℤ) :
    groupAt g (L ++ L') z = groupAt g L z ++ groupAt g L' z := by
  unfold groupAt
  simp [List.filter_append]

theorem mem_groupAt (g : GridGeom) (cs : List Contour) (z : ℤ) (c : Contour) :
    c ∈ groupAt g cs z ↔ c ∈ cs ∧ contourSliceIdx g c = some z := by
  unfold groupAt
  simp

/-- Inserting a contour that is either write-free or resolved to no slice
leaves the assembled volume unchanged. -/
theorem assemble_insert_invariant (g : GridGeom) (rast : Rasterizer)
    (fillFn : HoleFiller) (fill : Bool) (L L' : List Contour) (c : Contour)
    (h : (∀ sm, contourStep g rast sm c = sm) ∨ contourSliceIdx g c = none) :
    assembleVoxels g rast fillFn fill (L ++ c :: L') =
      assembleVoxels g rast fillFn fill (L ++ L') := by
  unfold assembleVoxels
  apply Finset.biUnion_congr rfl
  intro z _
  have hg : composeSlice g rast fillFn fill (groupAt g (L ++ c :: L') (z : ℤ)) =
      composeSlice g rast fillFn fill (groupAt g (L ++ L') (z : ℤ)) := by
    rw [groupAt_append, groupAt_append,
      show groupAt g (c :: L') (z : ℤ) =
        if contourSliceIdx g c = some (z : ℤ) then c :: groupAt g L' (z : ℤ)
        else groupAt g L' (z : ℤ) from by
          unfold groupAt
          rw [List.filter_cons]
          by_cases hcz : contourSliceIdx g c = some (z : ℤ) <;> simp [hcz]]
    by_cases hcz : contourSliceIdx g c = some (z : ℤ)
    · rw [if_pos hcz]
      rcases h with hid | hnone
      · unfold composeSlice composeSliceRaw
        rw [List.foldl_append, List.foldl_cons, hid]
        rw [← List.foldl_append]
      · rw [hnone] at hcz
        exact absurd hcz (by simp)
    · rw [if_neg hcz]
  rw [hg]

/-- C9: a contour with fewer than 3 points writes nothing into its slice
mask (its contribution is all-false, and `contourStep` is total, so no
error is possible), and dropping it from the contour sequence leaves the
assembled volume of the enclosing ROI unchanged; the same holds for a
contour whose slice index does not resolve. -/
theorem degenerate_contour_locally_skipped (g : GridGeom) (rast : Rasterizer)
    (fillFn : HoleFiller) (fill : Bool) (L L' : List Contour) (c : Contour)
    (hc : degenerate c ∨ contourSliceIdx g c = none) :
    (degenerate c → ∀ sm, contourStep g rast sm c = sm)
    ∧ assembleVoxels g rast fillFn fill (L ++ c :: L') =
        assembleVoxels g rast fillFn fill (L ++ L') := by
  refine ⟨fun hd => contourStep_degenerate g rast c hd, ?_⟩
  apply assemble_insert_invariant
  rcases hc with hd | hn
  · exact Or.inl (contourStep_degenerate g rast c hd)
  · exact Or.inr hn

/-- C3: the slice index of a contour is `round((z - origin_z) / spacing_z)`
(with Python's banker's rounding), accepted exactly when it lies in
`[0, size_z)`; `origin_z = -100, spacing_z = 2.5, z = -95` resolves to
index 2, `z = 1000` with `size_z = 50` is rejected; and a contour whose
slice index does not resolve is skipped without affecting the rest of the
ROI's assembled volume. -/
theorem slice_index_resolution :
    resolveSliceIdx (-95) (-100) (5 / 2) 50 = some 2
    ∧ resolveSliceIdx 1000 (-100) (5 / 2) 50 = none
    ∧ (∀ (z oz sz : ℚ) (nz : ℕ) (i : ℤ), resolveSliceIdx z oz sz nz = some i →
        i = pyRound ((z - oz) / sz) ∧ 0 ≤ i ∧ i < (nz : ℤ))
    ∧ (∀ (z oz sz : ℚ) (nz : ℕ), resolveSliceIdx z oz sz nz = none →
        pyRound ((z - oz) / sz) < 0 ∨ (nz : ℤ) ≤ pyRound ((z - oz) / sz))
    ∧ ∀ (g : GridGeom) (rast : Rasterizer) (fillFn : HoleFiller) (fill : Bool)
        (L L' : List Contour) (c : Contour), contourSliceIdx g c = none →
        assembleVoxels g rast fillFn fill (L ++ c :: L') =
          assembleVoxels g rast fillFn fill (L ++ L') := by
  refine ⟨by norm_num [resolveSliceIdx, pyRound],
    by norm_num [resolveSliceIdx, pyRound], ?_, ?_, ?_⟩
  · intro z oz sz nz i h
    unfold resolveSliceIdx at h
    by_cases hr : pyRound ((z - oz) / sz) < 0 ∨ (nz : ℤ) ≤ pyRound ((z - oz) / sz)
    · rw [if_pos hr] at h
      exact absurd h (by simp)
    · rw [if_neg hr] at h
      have := Option.some.inj h
      push_neg at hr
      omega
  · intro z oz sz nz h
    unfold resolveSliceIdx at h
    by_cases hr : pyRound ((z - oz) / sz) < 0 ∨ (nz : ℤ) ≤ pyRound ((z - oz) / sz)
    · exact hr
    · rw [if_neg hr] at h
      exact absurd h (by simp)
  · intro g rast fillFn fill L L' c h
    exact assemble_insert_invariant g rast fillFn fill L L' c (Or.inr h)

theorem foldl_contourStep_mem (g : GridGeom) (rast : Rasterizer)
    (cs : List Contour) (sm : Finset Pix) (p : Pix) :
    p ∈ cs.foldl (contourStep g rast) sm ↔
      cs.foldl
        (fun acc c =>
          match writeOf g rast c with
          | none => acc
          | some (px, b) => if p ∈ px then b else acc)
        (decide (p ∈ sm)) = true := by
  induction cs generalizing sm with
  | nil => simp
  | cons c cs ih =>
    rw [List.foldl_cons, List.foldl_cons, ih]
    have hstep : decide (p ∈ contourStep g rast sm c) =
        (match writeOf g rast c with
          | none => decide (p ∈ sm)
          | some (px, b) => if p ∈ px then b else decide (p ∈ sm)) := by
      unfold contourStep
      rcases writeOf g rast c with _ | ⟨px, b⟩
      · rfl
      · by_cases hp : p ∈ px
        · cases b <;> simp [hp]
        · cases b <;> simp [hp]
    rw [hstep]

/-- C4: membership in the slice mask composed over the slice's contours in
sequence order is decided by the last contour whose rasterization covers the
pixel (`false` for a SUB contour, `true` otherwise); and the hole fill is
applied to the composed mask after all set/clear writes exactly when
`fill_holes` holds and the composed mask is non-empty — an empty composed
slice is returned as-is, whatever the hole filler would do. -/
theorem compose_slice_sequence_semantics (g : GridGeom) (rast : Rasterizer)
    (fillFn : HoleFiller) (fill_holes : Bool) (cs : List Contour) :
    (∀ p, p ∈ composeSliceRaw g rast cs ↔ lastWriteVal g rast cs p = true)
    ∧ (fill_holes = true → composeSliceRaw g rast cs ≠ ∅ →
        composeSlice g rast fillFn fill_holes cs =
          fillFn (composeSliceRaw g rast cs) (g.size.1, g.size.2.1))
    ∧ (composeSliceRaw g rast cs = ∅ →
        composeSlice g rast fillFn fill_holes cs = ∅) := by
  refine ⟨?_, ?_, ?_⟩
  · intro p
    unfold composeSliceRaw lastWriteVal
    rw [foldl_contourStep_mem]
    simp
  · intro hf hne
    unfold composeSlice
    rw [if_pos ⟨Finset.nonempty_iff_ne_empty.mpr hne, hf⟩]
  · intro he
    unfold composeSlice
    rw [if_neg (by
      rw [he]
      rintro ⟨hne, -⟩
      exact absurd rfl (Finset.nonempty_iff_ne_empty.mp hne))]
    exact he

theorem assembleVoxels_all_unusable (g : GridGeom) (rast : Rasterizer)
    (fillFn : HoleFiller) (fill : Bool) (cs : List Contour)
    (h : ∀ c ∈ cs, contourSliceIdx g c = none ∨ degenerate c) :
    assembleVoxels g rast fillFn fill cs = ∅ := by
  have hslice : ∀ z : ℤ, composeSlice g rast fillFn fill (groupAt g cs z) = ∅ := by
    intro z
    have hraw : composeSliceRaw g rast (groupAt g cs z) = ∅ := by
      unfold composeSliceRaw
      apply foldl_const
      intro c hc sm
      obtain ⟨hcs, hcz⟩ := (mem_groupAt g cs z c).mp hc
      rcases h c hcs with hn | hdg
      · rw [hn] at hcz
        exact absurd hcz (by simp)
      · exact contourStep_degenerate g rast c hdg sm
    unfold composeSlice
    rw [hraw]
    simp
  unfold assembleVoxels
  apply Finset.eq_empty_iff_forall_not_mem.mpr
  intro p hp
  obtain ⟨z, _, hz⟩ := Finset.mem_biUnion.mp hp
  rw [hslice (z : ℤ)] at hz
  simp at hz

/-- C5 counterexample: the structure set `s0` registers ROI "A", which has
zero usable contours (no `ROIContourSequence` at all), yet
`_make_binary_mask` succeeds with an implicit all-false volume instead of
failing with a `RoiHasNoContours`-style error. -/
theorem make_binary_mask_no_contours_is_ok :
    make_binary_mask s0 g0 rast0 fillFn0 false "A" = .ok (emptyMask g0) := by
  rfl

/-- C5 amended: for every ROI present in the registry, when the ROI has zero
usable contours (missing contour sequence at any level, or every contour
skipped as malformed or out of range), `_make_binary_mask` does not fail:
it returns an all-false volume (after a logged warning). -/
theorem make_binary_mask_no_usable_contours (s : RTState) (g : GridGeom)
    (rast : Rasterizer) (fillFn : HoleFiller) (fill : Bool) (name : String)
    (idx : ℕ) (num : ℤ)
    (hd : dictLookup s.roiDict name = some (idx, num))
    (hn : noUsableContours s g idx) :
    make_binary_mask s g rast fillFn fill name = .ok (emptyMask g) := by
  unfold make_binary_mask
  rw [hd]
  unfold noUsableContours at hn
  rcases hrc : s.rtstruct.roiContourSequence with _ | rcs
  · simp [hrc]
  · simp only [hrc] at hn
    simp only [hrc]
    rcases hget : rcs.get? idx with _ | rc
    · simp [hget]
    · simp only [hget] at hn
      simp only [hget]
      rcases hcs : rc.contourSequence with _ | cs
      · simp [hcs]
      · simp only [hcs] at hn
        simp only [hcs]
        rw [assembleVoxels_all_unusable g rast fillFn fill cs hn]
        rfl

/-- C10: `rename_rois` rewrites `ROIName` inside `StructureSetROISequence`
but never rebuilds `roi_dict`; afterwards a mask lookup by the new name
fails with the not-found error, while a lookup by the old name still
succeeds and resolves (through the stale index) to the renamed ROI's
contour sequence. -/
theorem rename_rois_stale_registry (s : RTState) (m : List (String × String))
    (g : GridGeom) (rast : Rasterizer) (fillFn : HoleFiller) (fill : Bool)
    (old new : String) (i : ℕ) (num : ℤ) (r : RoiEntry)
    (rcs : List RoiContourEntry) (rc : RoiContourEntry) (cs : List Contour)
    (hd : dictLookup s.roiDict old = some (i, num))
    (hnew : dictLookup s.roiDict new = none)
    (hm : assocLookup m old = some new)
    (hr : s.rtstruct.structureSetROISequence.get? i = some r)
    (hrold : r.roiName = old)
    (hrc : s.rtstruct.roiContourSequence = some rcs)
    (hget : rcs.get? i = some rc)
    (hcs : rc.contourSequence = some cs) :
    (rename_rois s m).roiDict = s.roiDict
    ∧ make_binary_mask (rename_rois s m) g rast fillFn fill new =
        .error .roiNotFound
    ∧ make_binary_mask (rename_rois s m) g rast fillFn fill old =
        .ok ⟨g, assembleVoxels g rast fillFn fill cs⟩
    ∧ ((rename_rois s m).rtstruct.structureSetROISequence.get? i).map
        RoiEntry.roiName = some new := by
  have hdict : (rename_rois s m).roiDict = s.roiDict := rfl
  have hseq : (rename_rois s m).rtstruct.roiContourSequence =
      s.rtstruct.roiContourSequence := rfl
  refine ⟨hdict, ?_, ?_, ?_⟩
  · unfold make_binary_mask
    rw [hdict, hnew]
  · unfold make_binary_mask
    rw [hdict, hd, hseq, hrc]
    simp only [hget, hcs]
  · show ((s.rtstruct.structureSetROISequence.map fun r =>
        match assocLookup m r.roiName with
        | some n => { r with roiName := n }
        | none => r).get? i).map RoiEntry.roiName = some new
    rw [List.get?_map, hr]
    simp [hrold, hm]

theorem keptNums_sound (rois : List RoiEntry) (keep : List String) (n : ℤ)
    (hn : n ∈ (rois.filter fun r => decide (r.roiName ∈ keep)).map
      RoiEntry.roiNumber)
    (hnodup : (rois.map RoiEntry.roiNumber).Nodup)
    (r : RoiEntry) (hr : r ∈ rois) (hrk : r.roiName ∉ keep) :
    n ≠ r.roiNumber := by
  intro hne
  obtain ⟨r2, hr2, hr2n⟩ := List.mem_map.mp hn
  obtain ⟨hr2mem, hr2keep⟩ := List.mem_filter.mp hr2
  have : r2 = r :=
    List.inj_on_of_nodup_map hnodup hr2mem hr (by rw [hr2n, hne])
  rw [this] at hr2keep
  simp at hr2keep
  exact hrk hr2keep

/-- C8: after `prune_rtstruct_rois(keep)` (on a structure set whose ROI
numbers are distinct, as DICOM requires), the structure set holds exactly
the ROIs whose name is in `keep`; every surviving contour-sequence entry and
observation record references a kept ROI's number, never a removed ROI's
number; and `roi_dict` is rebuilt from the surviving ROIs. -/
theorem prune_rtstruct_rois_correct (s : RTState) (keep : List String)
    (hnodup : (s.rtstruct.structureSetROISequence.map RoiEntry.roiNumber).Nodup) :
    (∀ r, r ∈ (prune_rtstruct_rois s keep).rtstruct.structureSetROISequence ↔
        r ∈ s.rtstruct.structureSetROISequence ∧ r.roiName ∈ keep)
    ∧ (∀ rcs, (prune_rtstruct_rois s keep).rtstruct.roiContourSequence = some rcs →
        ∀ rc ∈ rcs, ∀ r ∈ s.rtstruct.structureSetROISequence,
          r.roiName ∉ keep → rc.referencedROINumber ≠ r.roiNumber)
    ∧ (∀ obs, (prune_rtstruct_rois s keep).rtstruct.rtROIObservationsSequence = some obs →
        ∀ o ∈ obs, ∀ r ∈ s.rtstruct.structureSetROISequence,
          r.roiName ∉ keep → o.referencedROINumber ≠ r.roiNumber)
    ∧ (prune_rtstruct_rois s keep).roiDict =
        buildRoiDict (prune_rtstruct_rois s keep).rtstruct.structureSetROISequence := by
  refine ⟨?_, ?_, ?_, rfl⟩
  · intro r
    show r ∈ s.rtstruct.structureSetROISequence.filter
        (fun r => decide (r.roiName ∈ keep)) ↔ _
    rw [List.mem_filter]
    simp
  · intro rcs hrcs rc hrc r hr hrk
    have : (prune_rtstruct_rois s keep).rtstruct.roiContourSequence =
        match s.rtstruct.roiContourSequence with
        | none => none
        | some rcs0 =>
          let kept := rcs0.filter fun rc =>
            decide (rc.referencedROINumber ∈
              (s.rtstruct.structureSetROISequence.filter
                fun r => decide (r.roiName ∈ keep)).map RoiEntry.roiNumber)
          if kept.isEmpty then none else some kept := rfl
    rw [this] at hrcs
    rcases hsrc : s.rtstruct.roiContourSequence with _ | rcs0
    · rw [hsrc] at hrcs
      exact absurd hrcs (by simp)
    · rw [hsrc] at hrcs
      simp only [] at hrcs
      by_cases hke : (rcs0.filter fun rc =>
          decide (rc.referencedROINumber ∈
            (s.rtstruct.structureSetROISequence.filter
              fun r => decide (r.roiName ∈ keep)).map RoiEntry.roiNumber)).isEmpty
      · rw [if_pos hke] at hrcs
        exact absurd hrcs (by simp)
      · rw [if_neg hke] at hrcs
        have hrc2 := Option.some.inj hrcs ▸ hrc
        obtain ⟨-, hmem⟩ := List.mem_filter.mp hrc2
        exact keptNums_sound s.rtstruct.structureSetROISequence keep
          rc.referencedROINumber (by simpa using hmem) hnodup r hr hrk
  · intro obs hobs o ho r hr hrk
    have : (prune_rtstruct_rois s keep).rtstruct.rtROIObservationsSequence =
        s.rtstruct.rtROIObservationsSequence.map fun l =>
          l.filter fun o =>
            decide (o.referencedROINumber ∈
              (s.rtstruct.structureSetROISequence.filter
                fun r => decide (r.roiName ∈ keep)).map RoiEntry.roiNumber) := rfl
    rw [this] at hobs
    rcases hsrc : s.rtstruct.rtROIObservationsSequence with _ | obs0
    · rw [hsrc] at hobs
      exact absurd hobs (by simp)
    · rw [hsrc] at hobs
      have ho2 := Option.some.inj hobs ▸ ho
      obtain ⟨-, hmem⟩ := List.mem_filter.mp ho2
      exact keptNums_sound s.rtstruct.structureSetROISequence keep
        o.referencedROINumber (by simpa using hmem) hnodup r hr hrk

theorem sameComp_refl (m : Finset Pos3) (v : Pos3) (h : v ∈ m) :
    sameComp m v v :=
  ⟨h, h, SimpleGraph.Reachable.refl _⟩

theorem sameComp_symm {m : Finset Pos3} {v w : Pos3} (h : sameComp m v w) :
    sameComp m w v := by
  obtain ⟨hv, hw, hr⟩ := h
  exact ⟨hw, hv, hr.symm⟩

theorem sameComp_trans {m : Finset Pos3} {u v w : Pos3}
    (h1 : sameComp m u v) (h2 : sameComp m v w) : sameComp m u w := by
  obtain ⟨hu, hv, hr⟩ := h1
  obtain ⟨hv2, hw, hr2⟩ := h2
  exact ⟨hu, hw, hr.trans hr2⟩

theorem mem_compOf {m : Finset Pos3} {v w : Pos3} :
    w ∈ compOf m v ↔ w ∈ m ∧ sameComp m v w :=
  Finset.mem_filter

theorem compOf_subset (m : Finset Pos3) (v : Pos3) : compOf m v ⊆ m :=
  Finset.filter_subset _ _

theorem self_mem_compOf {m : Finset Pos3} {v : Pos3} (h : v ∈ m) :
    v ∈ compOf m v :=
  mem_compOf.mpr ⟨h, sameComp_refl _ _ h⟩

theorem compOf_eq_of_mem {m : Finset Pos3} {v w : Pos3}
    (h : w ∈ compOf m v) : compOf m w = compOf m v := by
  obtain ⟨hwm, hvw⟩ := mem_compOf.mp h
  ext x
  simp only [mem_compOf]
  constructor
  · rintro ⟨hx, hwx⟩
    exact ⟨hx, sameComp_trans hvw hwx⟩
  · rintro ⟨hx, hvx⟩
    exact ⟨hx, sameComp_trans (sameComp_symm hvw) hvx⟩

theorem compVol_le_max (m : Finset Pos3) (vol : ℚ) {v : Pos3} (hv : v ∈ m) :
    ((compOf m v).card : ℚ) * vol ≤ maxCompVol m vol := by
  have ha : ((compOf m v).card : ℚ) * vol ∈
      (m.image (compOf m)).image fun c => (c.card : ℚ) * vol :=
    Finset.mem_image_of_mem _ (Finset.mem_image_of_mem _ hv)
  obtain ⟨b, hb⟩ := Finset.max_of_mem ha
  have hle := Finset.le_max ha
  rw [hb] at hle
  unfold maxCompVol
  rw [hb]
  exact WithBot.coe_le_coe.mp hle

theorem mem_removeIslandsVoxels (m : Finset Pos3) (vol thr : ℚ) (p : Pos3) :
    p ∈ removeIslandsVoxels m vol thr ↔
      p ∈ m ∧ maxCompVol m vol * thr ≤ ((compOf m p).card : ℚ) * vol := by
  unfold removeIslandsVoxels
  by_cases hm : m = ∅
  · rw [if_pos hm]
    subst hm
    simp
  · rw [if_neg hm]
    constructor
    · intro hp
      obtain ⟨c, hc, hpc⟩ := Finset.mem_sup.mp hp
      obtain ⟨hcim, hcthr⟩ := Finset.mem_filter.mp hc
      obtain ⟨u, hu, huc⟩ := Finset.mem_image.mp hcim
      have hpc2 : p ∈ compOf m u := by rw [huc]; exact hpc
      have hpm : p ∈ m := compOf_subset m u hpc2
      refine ⟨hpm, ?_⟩
      rw [compOf_eq_of_mem hpc2, huc]
      exact hcthr
    · rintro ⟨hpm, hpthr⟩
      exact Finset.mem_sup.mpr ⟨compOf m p,
        Finset.mem_filter.mpr ⟨Finset.mem_image_of_mem _ hpm, hpthr⟩,
        self_mem_compOf hpm⟩

/-- C1: for a binary mask and `0 ≤ thr ≤ 1` (with positive voxel volume),
`remove_islands_thr` succeeds and its result contains exactly the voxels of
connected components whose physical volume (voxel count times the per-voxel
volume) is at least `thr` times the largest component volume; with
`thr = 0` the result equals the input voxel set, and with `thr = 1` exactly
the components of maximal volume survive (ties all kept). -/
theorem remove_islands_thr_correct (mk : Mask) (thr : ℚ)
    (h0 : 0 ≤ thr) (h1 : thr ≤ 1) (hv : 0 < voxelVolume mk.geom) :
    remove_islands_thr mk thr =
      .ok ⟨mk.geom, removeIslandsVoxels mk.voxels (voxelVolume mk.geom) thr⟩
    ∧ (∀ p, p ∈ removeIslandsVoxels mk.voxels (voxelVolume mk.geom) thr ↔
        p ∈ mk.voxels ∧ maxCompVol mk.voxels (voxelVolume mk.geom) * thr ≤
          ((compOf mk.voxels p).card : ℚ) * voxelVolume mk.geom)
    ∧ removeIslandsVoxels mk.voxels (voxelVolume mk.geom) 0 = mk.voxels
    ∧ (∀ p, p ∈ removeIslandsVoxels mk.voxels (voxelVolume mk.geom) 1 ↔
        p ∈ mk.voxels ∧
          ((compOf mk.voxels p).card : ℚ) * voxelVolume mk.geom =
            maxCompVol mk.voxels (voxelVolume mk.geom)) := by
  refine ⟨?_, fun p => mem_removeIslandsVoxels _ _ _ p, ?_, ?_⟩
  · unfold remove_islands_thr
    rw [if_pos ⟨h0, h1⟩]
  · ext p
    rw [mem_removeIslandsVoxels]
    simp only [mul_zero]
    constructor
    · exact fun h => h.1
    · intro hp
      exact ⟨hp, mul_nonneg (Nat.cast_nonneg _) hv.le⟩
  · intro p
    rw [mem_removeIslandsVoxels]
    constructor
    · rintro ⟨hpm, hle⟩
      rw [mul_one] at hle
      exact ⟨hpm, le_antisymm (compVol_le_max _ _ hpm) hle⟩
    · rintro ⟨hpm, heq⟩
      rw [mul_one]
      exact ⟨hpm, heq.ge⟩

/-- C1 witness at a concrete mask and threshold 0. -/
theorem remove_islands_thr_correct_witness :
    removeIslandsVoxels mA.voxels (voxelVolume mA.geom) 0 = mA.voxels :=
  (remove_islands_thr_correct mA 0 (by norm_num) (by norm_num)
    (by norm_num [mA, g0, voxelVolume])).2.2.1

/-- C2 witness at two concrete masks of identical geometry. -/
theorem remove_overlapping_parts_correct_witness :
    ∃ w, remove_overlapping_parts mA mB =
      .ok (⟨mA.geom, mA.voxels \ mB.voxels⟩, w) :=
  (remove_overlapping_parts_correct mA mB rfl).1

/-- C3 witness: dropping a concrete out-of-range contour leaves a concrete
assembled volume unchanged. -/
theorem slice_index_resolution_witness :
    assembleVoxels g0 rast0 fillFn0 true [cTri, cFar] =
      assembleVoxels g0 rast0 fillFn0 true [cTri] :=
  slice_index_resolution.2.2.2.2 g0 rast0 fillFn0 true [cTri] [] cFar
    (by norm_num [contourSliceIdx, cFar, resolveSliceIdx, pyRound, g0])

/-- C4 witness: the empty contour list composes to the empty slice mask and
the hole filler is not consulted. -/
theorem compose_slice_sequence_semantics_witness :
    composeSlice g0 rast0 fillFn0 true [] = ∅ :=
  (compose_slice_sequence_semantics g0 rast0 fillFn0 true []).2.2 rfl

/-- C5 witness for the amended statement, at the concrete structure set with
a registered ROI and no contour sequence. -/
theorem make_binary_mask_no_usable_contours_witness :
    make_binary_mask s0 g0 rast0 fillFn0 true "A" = .ok (emptyMask g0) :=
  make_binary_mask_no_usable_contours s0 g0 rast0 fillFn0 true "A" 0 1
    rfl trivial

/-- C6 witness at two concrete masks of identical geometry. -/
theorem combine_or_of_all_comm_witness :
    ∃ mk w w2, combine_binary_masks [mA, mB] = .ok (mk, w) ∧
      combine_binary_masks [mB, mA] = .ok (mk, w2) :=
  combine_or_of_all_comm.2 mA mB rfl

/-- C7 witness: combining two concrete empty masks succeeds with an
all-false volume and one warning per mask. -/
theorem combine_error_and_warning_policy_witness :
    combine_binary_masks [mE, mE] = .ok (⟨mE.geom, ∅⟩, 2) :=
  combine_error_and_warning_policy.2.2.2 mE [mE] (by simp) (by simp [mE])

/-- C8 witness at a concrete structure set with distinct ROI numbers. -/
theorem prune_rtstruct_rois_correct_witness :
    (prune_rtstruct_rois s1 ["A"]).roiDict =
      buildRoiDict (prune_rtstruct_rois s1 ["A"]).rtstruct.structureSetROISequence :=
  (prune_rtstruct_rois_correct s1 ["A"] (by decide)).2.2.2

/-- C9 witness: dropping a concrete two-point contour leaves a concrete
assembled volume unchanged. -/
theorem degenerate_contour_locally_skipped_witness :
    assembleVoxels g0 rast0 fillFn0 true [cTri, cDegen] =
      assembleVoxels g0 rast0 fillFn0 true [cTri] :=
  (degenerate_contour_locally_skipped g0 rast0 fillFn0 true [cTri] [] cDegen
    (Or.inl (by
      intro pts h
      simp only [cDegen] at h
      rw [← Option.some.inj h]
      decide))).2

/-- C10 witness: after renaming ROI "A" to "C" in a concrete structure set,
lookup by "C" fails while lookup by "A" still yields the renamed ROI's
contours. -/
theorem rename_rois_stale_registry_witness :
    make_binary_mask (rename_rois s1 [("A", "C")]) g0 rast0 fillFn0 false "C" =
      .error .roiNotFound
    ∧ make_binary_mask (rename_rois s1 [("A", "C")]) g0 rast0 fillFn0 false "A" =
      .ok ⟨g0, assembleVoxels g0 rast0 fillFn0 false
        [⟨some [(0, 0, 0), (1, 0, 0), (1, 1, 0)], none, none⟩]⟩ := by
  have h := rename_rois_stale_registry s1 [("A", "C")] g0 rast0 fillFn0 false
    "A" "C" 0 1 ⟨"A", 1⟩
    [⟨1, some [⟨some [(0, 0, 0), (1, 0, 0), (1, 1, 0)], none, none⟩]⟩,
     ⟨2, some []⟩]
    ⟨1, some [⟨some [(0, 0, 0), (1, 0, 0), (1, 1, 0)], none, none⟩]⟩
    [⟨some [(0, 0, 0), (1, 0, 0), (1, 1, 0)], none, none⟩]
    rfl rfl rfl rfl rfl rfl rfl rfl
  exact ⟨h.2.1, h.2.2.1⟩
